import Mathlib

/-!
Verification of the BX semantic-analysis phase (`src/bxc/bxlib/bxast.py` and
`src/bxc/bxlib/bxtychecker.py`).

The checker is embedded shallowly: the checker's mutable state (the reporter's
diagnostic list, the scope chain, the procedure-signature table, the loop
counter and the active procedure) is threaded explicitly as a `St` record, and
every Python-level runtime failure (a failing `assert`, a `KeyError`, an
`AttributeError`) is modelled as `none` in an `Option`-valued result.

Positions (`Range`) are used by the source only to decorate diagnostics, never
for semantics, and are omitted.  Each diagnostic message produced by the
source is embedded as one constructor of `Diag` carrying the interpolated
values of its format string.

The repository's `bxscope.py` and `bxerrors.py` are imported by the checker
but are not part of the two source files; the `Scope` and reporter/checkpoint
operations are therefore modelled from the specification (its section 6), as
noted on their definitions.
-/

namespace BXC

/-- Basic types, mirroring `BasicBXType` in `bxast.py` (lines 33-41). -/
inductive Ty where
  | VOID
  | BOOL
  | INT
  | NULL
  | POINTER_INT
  | POINTER_BOOL
  | ARRAY_INT
  | ARRAY_BOOL
deriving DecidableEq, Repr

/-- Diagnostics.  Each constructor stands for one `report`/`reporter` call
site in `bxtychecker.py` and carries the values interpolated into that site's
message string; the exact format strings are quoted in the comments. -/
inductive Diag where
  /-- duplicated procedure name: {name} (bxtychecker.py line 27) -/
  | duplicated_procedure_name (name : String)
  /-- duplicated global variable name: {name} (line 40) -/
  | duplicated_global_variable_name (name : String)
  /-- this program is missing a main subroutine (line 51) -/
  | missing_main
  /-- main should not take any argument and should not return any value (line 54) -/
  | bad_main_signature
  /-- duplicated variable declaration for {name} (line 120) -/
  | duplicated_variable_declaration (name : String)
  /-- missing variable declaration for {name} (line 127) -/
  | missing_variable_declaration (name : String)
  /-- integer literal out of range: {value} (line 135) -/
  | integer_literal_out_of_range (value : Int)
  /-- unknown procedure: {name} (line 165) -/
  | unknown_procedure (name : String)
  /-- invalid number of arguments: expected {expected}, got {got} (line 173) -/
  | invalid_number_of_arguments (expected got : Nat)
  /-- can only print integers and booleans, not {t} (line 188) -/
  | can_only_print (t : Ty)
  /-- invalid type: get {got}, expected {expected} (line 223) -/
  | invalid_type (got expected : Ty)
  /-- break/continue statement outside of a loop (line 260) -/
  | break_continue_outside_loop
  /-- value-less return statement in a function (line 271) -/
  | valueless_return_in_function
  /-- return statement in a subroutine (line 278) -/
  | return_in_subroutine
  /-- this function is missing a return statement (line 303) -/
  | missing_return
  /-- this expression is not a literal (line 312) -/
  | not_a_literal
deriving DecidableEq, Repr

mutual

/-- Expression nodes of `bxast.py`.  Each constructor mirrors one dataclass;
the final `Option Ty` field is the node's mutable `type_` slot (default
`None`), written by the checker.  `Name` fields are embedded as their
`value` string (positions are diagnostics-only). -/
inductive Expression where
  | VarExpression (name : String) (type_ : Option Ty)
  | BoolExpression (value : Bool) (type_ : Option Ty)
  | IntExpression (value : Int) (type_ : Option Ty)
  /-- the second `AllocExpression` dataclass (bxast.py line 137) shadows the
  first; its fields are `alloctype` and `size`. -/
  | AllocExpression (alloctype : Ty) (size : Expression) (type_ : Option Ty)
  | DereferenceExpression (pointer_expr : Expression) (type_ : Option Ty)
  | IndexExpression (array_expr : Expression) (index_expr : Expression) (type_ : Option Ty)
  | NullExpression (type_ : Option Ty)
  | OpAppExpression (operator : String) (arguments : List Expression) (type_ : Option Ty)
  | CallExpression (proc : String) (arguments : List Expression) (type_ : Option Ty)
  | PrintExpression (argument : Expression) (type_ : Option Ty)
  | RefExpression (argument : Assignable) (type_ : Option Ty)

/-- Assignable targets of `bxast.py` (lines 153-182).  They are `Expression`
subclasses in the source; their own `type_` slots are never consulted by the
checker and are omitted here. -/
inductive Assignable where
  | VarAssignable (name : String)
  | DerefAssignable (argument : Assignable)
  | ArrayAssignable (argument : Assignable) (index : Expression)
  | AttributeAssignable (argument : Assignable) (attr : String)
  | AttrPointerAssignable (argument : Assignable) (attr : String)

end

/-- Statement nodes of `bxast.py` (lines 190-247).  Modelled from the spec:
the parser is not under `src/`, and per the specification the assignment
target is resolved "as a plain bound name", so `AssignStatement.lhs` is
embedded as a `Name` (its `value` string). -/
inductive Statement where
  | VarDeclStatement (name : String) (init : Expression) (type_ : Ty)
  | AssignStatement (lhs : String) (rhs : Expression)
  | ExprStatement (expression : Expression)
  | PrintStatement (value : Expression)
  | BlockStatement (body : List Statement)
  | IfStatement (condition : Expression) (iftrue : Statement) (iffalse : Option Statement)
  | WhileStatement (condition : Expression) (body : Statement)
  | BreakStatement
  | ContinueStatement
  | ReturnStatement (expr : Option Expression)

/-- Top-level declarations of `bxast.py` (lines 250-272). -/
inductive TopDecl where
  | GlobVarDecl (name : String) (init : Expression) (type_ : Ty)
  | ProcDecl (name : String) (arguments : List (String × Ty)) (rettype : Option Ty)
      (body : Statement)
  | TypedefDecl (aliasName : String) (original_type : Ty)

/-- A program is an ordered list of top-level declarations (bxast.py line 276). -/
abbrev Program := List TopDecl

/-- Association-list lookup keyed by strings: the shallow embedding of both
Python `dict` lookup (`SIGS`, `procs`) and lookup within one scope frame. -/
def assoc {β : Type} : List (String × β) → String → Option β
  | [], _ => none
  | (k, v) :: r, n => if k = n then some v else assoc r n

/-- One lexical frame: name-to-type bindings, most recent first. -/
abbrev Frame := List (String × Ty)

/-- Modelled from the spec: `bxscope.py` is not under `src/`.  Per the
specification's section 6, a scope is a stack of lexical frames; the head of
`frames` is the innermost frame. -/
structure Scope where
  frames : List Frame
deriving DecidableEq

/-- Modelled from the spec: `Scope.push(name, type)` binds in the innermost
frame. -/
def Scope.push (sc : Scope) (n : String) (t : Ty) : Scope :=
  match sc.frames with
  | [] => sc
  | f :: r => ⟨((n, t) :: f) :: r⟩

/-- Modelled from the spec: `Scope.islocal(name)` tests only the innermost
frame. -/
def Scope.islocal (sc : Scope) (n : String) : Bool :=
  match sc.frames with
  | [] => false
  | f :: _ => (assoc f n).isSome

/-- Modelled from the spec: helper for chain lookup, innermost frame first. -/
def lookupChain : List Frame → String → Option Ty
  | [], _ => none
  | f :: r, n =>
    match assoc f n with
    | some t => some t
    | none => lookupChain r n

/-- Modelled from the spec: lookup searches the full chain from innermost
outward. -/
def Scope.lookup (sc : Scope) (n : String) : Option Ty :=
  lookupChain sc.frames n

/-- Modelled from the spec: `Scope.open()` pushes a fresh innermost frame. -/
def Scope.opened (sc : Scope) : Scope := ⟨[] :: sc.frames⟩

/-- Modelled from the spec: `Scope.close()` pops the innermost frame. -/
def Scope.closed (sc : Scope) : Scope := ⟨sc.frames.tail⟩

/-- Procedure-signature table built by the `PreTyper`:
name to (parameter types in order, return type or VOID)
(`ProcSigMap`, bxtychecker.py lines 10-11). -/
abbrev ProcSigMap := List (String × (List Ty × Ty))

/-- The checker's threaded state: the reporter's accumulated diagnostics
(`self.reporter`), the scope chain (`self.scope`), the signature table
(`self.procs`), the loop-nesting counter (`self.loops`) and the active
procedure (`self.proc`, of which only the `rettype` field is ever read, so
only that field is stored: `none` means no procedure is active). -/
structure St where
  diags : List Diag
  scope : Scope
  procs : ProcSigMap
  loops : Nat
  proc : Option (Option Ty)
deriving DecidableEq

/-- Record one diagnostic (the reporter's `report`, bxtychecker.py
lines 95-96): diagnostics accumulate in order. -/
def report (d : Diag) (st : St) : St := { st with diags := st.diags ++ [d] }

/-- Operator-signature table `TypeChecker.SIGS` (bxtychecker.py lines 64-86),
verbatim: operator name to (positional parameter types, result type). -/
def SIGS : List (String × (List Ty × Ty)) :=
  [ (r"opposite", ([Ty.INT], Ty.INT)),
    (r"bitwise-negation", ([Ty.BOOL], Ty.BOOL)),
    (r"boolean-not", ([Ty.BOOL], Ty.BOOL)),
    (r"addition", ([Ty.INT, Ty.INT], Ty.INT)),
    (r"subtraction", ([Ty.INT, Ty.INT], Ty.INT)),
    (r"multiplication", ([Ty.INT, Ty.INT], Ty.INT)),
    (r"division", ([Ty.INT, Ty.INT], Ty.INT)),
    (r"modulus", ([Ty.INT, Ty.INT], Ty.INT)),
    (r"logical-right-shift", ([Ty.INT, Ty.INT], Ty.INT)),
    (r"logical-left-shift", ([Ty.INT, Ty.INT], Ty.INT)),
    (r"bitwise-and", ([Ty.INT, Ty.INT], Ty.INT)),
    (r"bitwise-or", ([Ty.INT, Ty.INT], Ty.INT)),
    (r"bitwise-xor", ([Ty.INT, Ty.INT], Ty.INT)),
    (r"boolean-and", ([Ty.BOOL, Ty.BOOL], Ty.BOOL)),
    (r"boolean-or", ([Ty.BOOL, Ty.BOOL], Ty.BOOL)),
    (r"cmp-equal", ([Ty.INT, Ty.INT], Ty.BOOL)),
    (r"cmp-not-equal", ([Ty.INT, Ty.INT], Ty.BOOL)),
    (r"cmp-lower-than", ([Ty.INT, Ty.INT], Ty.BOOL)),
    (r"cmp-lower-or-equal-than", ([Ty.INT, Ty.INT], Ty.BOOL)),
    (r"cmp-greater-than", ([Ty.INT, Ty.INT], Ty.BOOL)),
    (r"cmp-greater-or-equal-than", ([Ty.INT, Ty.INT], Ty.BOOL)) ]

/-- TypeChecker.check_local_free (lines 118-122): report a duplicate if the
name is bound in the innermost frame; the Bool is the method's return value. -/
def check_local_free (name : String) (st : St) : Bool × St :=
  if st.scope.islocal name then
    (false, report (.duplicated_variable_declaration name) st)
  else (true, st)

/-- TypeChecker.check_local_bound (lines 124-131): report a missing
declaration if the name is bound in no frame; otherwise return its type. -/
def check_local_bound (name : String) (st : St) : Option Ty × St :=
  if (st.scope.lookup name).isNone then
    (none, report (.missing_variable_declaration name) st)
  else (st.scope.lookup name, st)

/-- TypeChecker.check_integer_constant_range (lines 133-137): report a value
outside `range(-(1 << 63), 1 << 63)`; the Bool is the method's return value. -/
def check_integer_constant_range (value : Int) (st : St) : Bool × St :=
  if -(2 ^ 63) ≤ value ∧ value < 2 ^ 63 then (true, st)
  else (false, report (.integer_literal_out_of_range value) st)

/-- Read a node's `type_` slot. -/
def Expression.type_ : Expression → Option Ty
  | .VarExpression _ t => t
  | .BoolExpression _ t => t
  | .IntExpression _ t => t
  | .AllocExpression _ _ t => t
  | .DereferenceExpression _ t => t
  | .IndexExpression _ _ t => t
  | .NullExpression t => t
  | .OpAppExpression _ _ t => t
  | .CallExpression _ _ t => t
  | .PrintExpression _ t => t
  | .RefExpression _ t => t

/-- Write a node's `type_` slot (the in-place `expr.type_ = type_`,
bxtychecker.py line 227, in copy style). -/
def Expression.setType : Expression → Option Ty → Expression
  | .VarExpression n _, t => .VarExpression n t
  | .BoolExpression v _, t => .BoolExpression v t
  | .IntExpression v _, t => .IntExpression v t
  | .AllocExpression a s _, t => .AllocExpression a s t
  | .DereferenceExpression p _, t => .DereferenceExpression p t
  | .IndexExpression a i _, t => .IndexExpression a i t
  | .NullExpression _, t => .NullExpression t
  | .OpAppExpression o a _, t => .OpAppExpression o a t
  | .CallExpression p a _, t => .CallExpression p a t
  | .PrintExpression a _, t => .PrintExpression a t
  | .RefExpression a _, t => .RefExpression a t

/-- Shared tail of `for_expression` (bxtychecker.py lines 219-227): when an
inferred type was found and an expected type was supplied, a mismatch is
reported; the inferred type (possibly `none`) is then written to the node. -/
def for_expression_tail (core : Expression) (ty? etype : Option Ty) (st : St) :
    Expression × St :=
  let st' :=
    match ty?, etype with
    | some t, some et => if t ≠ et then report (.invalid_type t et) st else st
    | _, _ => st
  (core.setType ty?, st')

mutual

/-- TypeChecker.for_expression (bxtychecker.py lines 139-227).  Returns the
node with annotated children and its `type_` slot written, plus the updated
state; `none` models a Python runtime failure:
the `case _` arm's `assert(False)` (reached by `NullExpression` and
`RefExpression`), the `KeyError` on an operator absent from `SIGS`, and the
`AttributeError` raised by `Type.INT` / `Type.POINTER_INT` /
`Type.POINTER_BOOL` in the alloc, dereference and index arms (class `Type` in
`bxast.py` has no such attributes; the enum members belong to
`BasicBXType`). -/
def for_expression (expr : Expression) (etype : Option Ty) (st : St) :
    Option (Expression × St) :=
  match expr with
  | .VarExpression name ty0 =>
    let (r, st₁) := check_local_bound name st
    let ty? := if r.isSome then st₁.scope.lookup name else none
    some (for_expression_tail (.VarExpression name ty0) ty? etype st₁)
  | .BoolExpression v ty0 =>
    some (for_expression_tail (.BoolExpression v ty0) (some .BOOL) etype st)
  | .IntExpression v ty0 =>
    let (_, st₁) := check_integer_constant_range v st
    some (for_expression_tail (.IntExpression v ty0) (some .INT) etype st₁)
  | .OpAppExpression op args ty0 =>
    match assoc SIGS op with
    | none => none
    | some (ptys, rty) =>
      match for_op_args ptys args st with
      | none => none
      | some (args', st₁) =>
        some (for_expression_tail (.OpAppExpression op args' ty0) (some rty) etype st₁)
  | .CallExpression name args ty0 =>
    match assoc st.procs name with
    | none =>
      let st₁ := report (.unknown_procedure name) st
      match for_call_args [] args st₁ with
      | none => none
      | some (args', st₂) =>
        some (for_expression_tail (.CallExpression name args' ty0) none etype st₂)
    | some (atys, rty) =>
      let st₁ :=
        if atys.length ≠ args.length then
          report (.invalid_number_of_arguments atys.length args.length) st
        else st
      match for_call_args atys args st₁ with
      | none => none
      | some (args', st₂) =>
        some (for_expression_tail (.CallExpression name args' ty0) (some rty) etype st₂)
  | .PrintExpression a ty0 =>
    match for_expression a none st with
    | none => none
    | some (a', st₁) =>
      let st₂ :=
        match a'.type_ with
        | none => st₁
        | some t => if t = .INT ∨ t = .BOOL then st₁ else report (.can_only_print t) st₁
      some (for_expression_tail (.PrintExpression a' ty0) (some .VOID) etype st₂)
  | .AllocExpression _ _ _ => none
  | .DereferenceExpression p _ =>
    match for_expression p none st with
    | none => none
    | some _ => none
  | .IndexExpression a _ _ =>
    match for_expression a none st with
    | none => none
    | some _ => none
  | .NullExpression _ => none
  | .RefExpression _ _ => none

/-- The operator-argument loop
`for atype, argument in zip(opsig[0], arguments)` (lines 156-157): pairs up
to the shorter of the two lists are checked positionally; arguments beyond
the declared arity are returned untouched. -/
def for_op_args (ptys : List Ty) (args : List Expression) (st : St) :
    Option (List Expression × St) :=
  match ptys, args with
  | _, [] => some ([], st)
  | [], a :: rest => some (a :: rest, st)
  | p :: ptys, a :: rest =>
    match for_expression a (some p) st with
    | none => none
    | some (a', st') =>
      match for_op_args ptys rest st' with
      | none => none
      | some (rest', st'') => some (a' :: rest', st'')

/-- The call-argument loop (lines 177-178): argument `i` is checked against
`atypes[i] if i in range(len(atypes)) else None`, realised here by taking the
head of the remaining parameter-type list at each step. -/
def for_call_args (atys : List Ty) (args : List Expression) (st : St) :
    Option (List Expression × St) :=
  match args with
  | [] => some ([], st)
  | a :: rest =>
    match for_expression a atys.head? st with
    | none => none
    | some (a', st') =>
      match for_call_args atys.tail rest st' with
      | none => none
      | some (rest', st'') => some (a' :: rest', st'')

end

mutual

/-- TypeChecker.has_return (bxtychecker.py lines 328-342): coarse
guaranteed-return predicate. -/
def has_return : Statement → Bool
  | .ReturnStatement _ => true
  | .IfStatement _ iftrue iffalse => has_return iftrue && has_return_opt iffalse
  | .BlockStatement body => has_return_list body
  | _ => false

/-- Python's `has_return(iffalse)` with `iffalse = None` falls through to the
default arm and yields `False`. -/
def has_return_opt : Option Statement → Bool
  | none => false
  | some s => has_return s

/-- The generator in `any(self.has_return(b) for b in block)` (line 339). -/
def has_return_list : List Statement → Bool
  | [] => false
  | s :: r => has_return s || has_return_list r

end

mutual

/-- TypeChecker.for_statement (bxtychecker.py lines 229-284).  `none` models
a Python runtime failure: the value-less-return arm first reports when the
active procedure declares a return type, then evaluates `self.proc.retty`
(class `ProcDecl` has no attribute `retty`: `AttributeError`) and would next
call `for_expression(None)` (the `assert(False)` arm); since the exception
aborts the session without returning, the whole arm is `none` here.  A
return statement outside any procedure (`self.proc is None`) likewise fails
on the attribute access. -/
def for_statement (stmt : Statement) (st : St) : Option St :=
  match stmt with
  | .VarDeclStatement name init ty =>
    let (ok, st₁) := check_local_free name st
    let st₂ := if ok then { st₁ with scope := st₁.scope.push name ty } else st₁
    match for_expression init (some ty) st₂ with
    | none => none
    | some (_, st₃) => some st₃
  | .AssignStatement lhs rhs =>
    let (lhstype, st₁) := check_local_bound lhs st
    match for_expression rhs lhstype st₁ with
    | none => none
    | some (_, st₂) => some st₂
  | .ExprStatement e =>
    match for_expression e none st with
    | none => none
    | some (_, st₁) => some st₁
  | .BlockStatement body =>
    match for_stmts body { st with scope := st.scope.opened } with
    | none => none
    | some st' => some { st' with scope := st'.scope.closed }
  | .IfStatement c iftrue iffalse =>
    match for_expression c (some .BOOL) st with
    | none => none
    | some (_, st₁) =>
      match for_statement iftrue st₁ with
      | none => none
      | some st₂ => for_statement_opt iffalse st₂
  | .WhileStatement c body =>
    match for_expression c (some .BOOL) st with
    | none => none
    | some (_, st₁) =>
      match for_statement body { st₁ with loops := st₁.loops + 1 } with
      | none => none
      | some st₂ => some { st₂ with loops := st₂.loops - 1 }
  | .BreakStatement =>
    some (if st.loops = 0 then report .break_continue_outside_loop st else st)
  | .ContinueStatement =>
    some (if st.loops = 0 then report .break_continue_outside_loop st else st)
  | .PrintStatement e =>
    match for_expression e (some .INT) st with
    | none => none
    | some (_, st₁) => some st₁
  | .ReturnStatement none => none
  | .ReturnStatement (some _) =>
    match st.proc with
    | none => none
    | some rt => some (if rt.isNone then report .return_in_subroutine st else st)

/-- The else-branch step of the if-statement arm (lines 249-250): `iffalse`
is checked only when present. -/
def for_statement_opt : Option Statement → St → Option St
  | none, st => some st
  | some s, st => for_statement s st

/-- The statement loop of TypeChecker.for_block (line 288-289). -/
def for_stmts : List Statement → St → Option St
  | [], st => some st
  | s :: r, st =>
    match for_statement s st with
    | none => none
    | some st' => for_stmts r st'

end

/-- TypeChecker.for_block (lines 286-289): open a nested scope, check the
statements in order, close the scope.  The block-statement arm of
`for_statement` above inlines this body verbatim so that the group stays
structurally recursive. -/
def for_block (body : List Statement) (st : St) : Option St :=
  match for_stmts body { st with scope := st.scope.opened } with
  | none => none
  | some st' => some { st' with scope := st'.scope.closed }

/-- The parameter-binding loop of `for_topdecl` (lines 295-297): each
parameter name must be free in the fresh innermost frame; on success it is
bound there (first wins on duplicates). -/
def bind_params : List (String × Ty) → St → St
  | [], st => st
  | (n, t) :: r, st =>
    let (ok, st₁) := check_local_free n st
    bind_params r (if ok then { st₁ with scope := st₁.scope.push n t } else st₁)

/-- TypeChecker.check_constant (lines 320-326): only integer literals are
constants. -/
def check_constant : Expression → Bool
  | .IntExpression _ _ => true
  | _ => false

/-- TypeChecker.for_topdecl (bxtychecker.py lines 291-314).  For a procedure:
enter the procedure context (`in_proc` asserts no procedure is active, sets
`self.proc` and opens a scope), bind the parameters, check the body, then --
still inside the context -- report a declared-return-type procedure whose
body fails `has_return`; finally restore the context.  For a global: check
the initializer against the declared type and require it to be a literal.
A typedef matches no arm of the Python `match` and is a no-op. -/
def for_topdecl (decl : TopDecl) (st : St) : Option St :=
  match decl with
  | .ProcDecl _ args retty body =>
    match st.proc with
    | some _ => none
    | none =>
      let st₁ := bind_params args { st with proc := some retty, scope := st.scope.opened }
      match for_statement body st₁ with
      | none => none
      | some st₂ =>
        let st₃ :=
          match retty with
          | some _ => if has_return body then st₂ else report .missing_return st₂
          | none => st₂
        some { st₃ with proc := none, scope := st₃.scope.closed }
  | .GlobVarDecl _ init ty =>
    match for_expression init (some ty) st with
    | none => none
    | some (_, st₁) =>
      some (if check_constant init then st₁ else report .not_a_literal st₁)
  | .TypedefDecl _ _ => some st

/-- TypeChecker.for_program (lines 316-318) and TypeChecker.check (344-345):
check every top-level declaration in order. -/
def for_program : Program → St → Option St
  | [], st => some st
  | d :: r, st =>
    match for_topdecl d st with
    | none => none
    | some st' => for_program r st'

/-- The declaration loop of `PreTyper.pretype` (bxtychecker.py lines 22-48):
collect procedure signatures (duplicates reported and dropped, first wins)
and global bindings (likewise); a typedef hits the `case _` arm's
`assert(False)`, modelled as `none`. -/
def pretype_loop :
    Program → Scope → ProcSigMap → List Diag → Option (Scope × ProcSigMap × List Diag)
  | [], sc, ps, ds => some (sc, ps, ds)
  | d :: r, sc, ps, ds =>
    match d with
    | .ProcDecl name args rettype _ =>
      if (assoc ps name).isSome then
        pretype_loop r sc ps (ds ++ [.duplicated_procedure_name name])
      else
        pretype_loop r sc (ps ++ [(name, (args.map (·.2), rettype.getD .VOID))]) ds
    | .GlobVarDecl name _ ty =>
      if (sc.lookup name).isSome then
        pretype_loop r sc ps (ds ++ [.duplicated_global_variable_name name])
      else pretype_loop r (sc.push name ty) ps ds
    | .TypedefDecl _ _ => none

/-- PreTyper.pretype (bxtychecker.py lines 18-57): run the declaration loop
on a fresh one-frame scope, then validate the entry point: a missing `main`
and a `main` whose signature differs from `((), VOID)` are reported. -/
def pretype (prgm : Program) : Option (Scope × ProcSigMap × List Diag) :=
  match pretype_loop prgm ⟨[[]]⟩ [] [] with
  | none => none
  | some (sc, ps, ds) =>
    let ds' :=
      match assoc ps (r"main") with
      | none => ds ++ [.missing_main]
      | some sig => if sig ≠ ([], Ty.VOID) then ds ++ [.bad_main_signature] else ds
    some (sc, ps, ds')

/-- One checking session of the driver `check` (bxtychecker.py lines
348-352): the PreTyper runs, then a TypeChecker initialised with its outputs
runs over the program; the final state carries every diagnostic recorded
inside the checkpoint (the reporter enters the session empty). -/
def checkSession (prgm : Program) : Option St :=
  match pretype prgm with
  | none => none
  | some (sc, ps, ds) =>
    for_program prgm { diags := ds, scope := sc, procs := ps, loops := 0, proc := none }

/-- Driver `check(prgm, reporter)` (bxtychecker.py lines 348-352): run the
session inside one checkpoint and return the checkpoint's truthiness, which
per the specification's section 6 is "no diagnostic was recorded within this
scope"; `none` means the session raised instead of returning. -/
def check (prgm : Program) : Option Bool :=
  match checkSession prgm with
  | none => none
  | some st => some st.diags.isEmpty

/-- Diagnostics whose report sites lie inside `for_expression` (or inside the
helpers it calls): every diagnostic a successful expression check can add is
of one of these shapes. -/
def exprSiteDiag : Diag → Bool
  | .missing_variable_declaration _ => true
  | .integer_literal_out_of_range _ => true
  | .unknown_procedure _ => true
  | .invalid_number_of_arguments _ _ => true
  | .can_only_print _ => true
  | .invalid_type _ _ => true
  | _ => false

/-- Diagnostics whose report sites lie inside `for_expression` but outside
its call-expression arm. -/
def noCallSiteDiag : Diag → Bool
  | .missing_variable_declaration _ => true
  | .integer_literal_out_of_range _ => true
  | .can_only_print _ => true
  | .invalid_type _ _ => true
  | _ => false

mutual

/-- Whether an expression contains a `CallExpression` anywhere (assignables
under a `RefExpression` are not traversed: the checker fails on such nodes
before looking inside them). -/
def hasCall : Expression → Bool
  | .VarExpression _ _ => false
  | .BoolExpression _ _ => false
  | .IntExpression _ _ => false
  | .AllocExpression _ s _ => hasCall s
  | .DereferenceExpression p _ => hasCall p
  | .IndexExpression a i _ => hasCall a || hasCall i
  | .NullExpression _ => false
  | .OpAppExpression _ args _ => hasCallList args
  | .CallExpression _ _ _ => true
  | .PrintExpression a _ => hasCall a
  | .RefExpression _ _ => false

/-- List version of `hasCall`. -/
def hasCallList : List Expression → Bool
  | [] => false
  | a :: r => hasCall a || hasCallList r

end

/-- The state a `TypeChecker` starts a body-less session from: empty
reporter, one empty scope frame, no known procedures, no loop, no active
procedure. -/
def st0 : St := { diags := [], scope := ⟨[[]]⟩, procs := [], loops := 0, proc := none }

/-- State `st'` differs from `st` only by appending diagnostics, all of the
given shape class. -/
def ExtendsBy (st st' : St) (P : Diag → Bool) : Prop :=
  ∃ ds, st' = { st with diags := st.diags ++ ds } ∧ ∀ d ∈ ds, P d = true

theorem extendsBy_refl (st : St) (P : Diag → Bool) : ExtendsBy st st P :=
  ⟨[], by simp, by simp⟩

theorem extendsBy_report (st : St) (P : Diag → Bool) (d : Diag) (hd : P d = true) :
    ExtendsBy st (report d st) P :=
  ⟨[d], rfl, by simpa⟩

theorem extendsBy_trans {st st' st'' : St} {P : Diag → Bool}
    (h1 : ExtendsBy st st' P) (h2 : ExtendsBy st' st'' P) : ExtendsBy st st'' P := by
  obtain ⟨ds1, rfl, hp1⟩ := h1
  obtain ⟨ds2, rfl, hp2⟩ := h2
  refine ⟨ds1 ++ ds2, by simp, ?_⟩
  intro d hd
  rcases List.mem_append.mp hd with h | h
  · exact hp1 d h
  · exact hp2 d h

theorem extendsBy_mem {st st' : St} {P : Diag → Bool} (h : ExtendsBy st st' P)
    {d : Diag} (hd : d ∈ st.diags) : d ∈ st'.diags := by
  obtain ⟨ds, rfl, -⟩ := h
  exact List.mem_append_left _ hd

theorem extendsBy_not_mem {st st' : St} {P : Diag → Bool} (h : ExtendsBy st st' P)
    {d : Diag} (hP : P d = false) (hd : d ∉ st.diags) : d ∉ st'.diags := by
  obtain ⟨ds, rfl, hp⟩ := h
  intro hmem
  rcases List.mem_append.mp hmem with h' | h'
  · exact hd h'
  · exact absurd (hp d h') (by simp [hP])

theorem extendsBy_scope {st st' : St} {P : Diag → Bool} (h : ExtendsBy st st' P) :
    st'.scope = st.scope := by
  obtain ⟨ds, rfl, -⟩ := h
  rfl

theorem check_local_free_extends (n : String) (st : St) (P : Diag → Bool)
    (hP : P (.duplicated_variable_declaration n) = true) :
    ExtendsBy st (check_local_free n st).2 P := by
  unfold check_local_free
  split
  · exact extendsBy_report st P _ hP
  · exact extendsBy_refl st P

theorem check_local_bound_extends (n : String) (st : St) (P : Diag → Bool)
    (hP : P (.missing_variable_declaration n) = true) :
    ExtendsBy st (check_local_bound n st).2 P := by
  unfold check_local_bound
  split
  · exact extendsBy_report st P _ hP
  · exact extendsBy_refl st P

theorem check_integer_constant_range_extends (v : Int) (st : St) (P : Diag → Bool)
    (hP : P (.integer_literal_out_of_range v) = true) :
    ExtendsBy st (check_integer_constant_range v st).2 P := by
  unfold check_integer_constant_range
  split
  · exact extendsBy_refl st P
  · exact extendsBy_report st P _ hP

theorem for_expression_tail_extends (core : Expression) (ty? etype : Option Ty) (st : St)
    (P : Diag → Bool) (hP : ∀ a b, P (.invalid_type a b) = true) :
    ExtendsBy st (for_expression_tail core ty? etype st).2 P := by
  unfold for_expression_tail
  rcases ty? with - | t <;> rcases etype with - | et <;>
    simp only [extendsBy_refl]
  split
  · exact extendsBy_report st P _ (hP t et)
  · exact extendsBy_refl st P

mutual

theorem for_expression_extends (e : Expression) (ety : Option Ty) (st : St)
    (e' : Expression) (st' : St) (h : for_expression e ety st = some (e', st')) :
    ExtendsBy st st' exprSiteDiag ∧
      (hasCall e = false → ExtendsBy st st' noCallSiteDiag) := by
  cases e with
  | VarExpression n ty0 =>
    simp only [for_expression] at h
    rcases hcb : check_local_bound n st with ⟨r, st₁⟩
    rw [hcb] at h
    simp only [Option.some.injEq] at h
    have hst : st' = (for_expression_tail (.VarExpression n ty0)
        (if r.isSome then st₁.scope.lookup n else none) ety st₁).2 := (congrArg Prod.snd h).symm
    have h1e : ExtendsBy st st₁ exprSiteDiag := by
      have := check_local_bound_extends n st exprSiteDiag rfl
      rwa [hcb] at this
    have h1n : ExtendsBy st st₁ noCallSiteDiag := by
      have := check_local_bound_extends n st noCallSiteDiag rfl
      rwa [hcb] at this
    subst hst
    exact ⟨extendsBy_trans h1e (for_expression_tail_extends _ _ _ _ exprSiteDiag (fun _ _ => rfl)),
      fun _ => extendsBy_trans h1n (for_expression_tail_extends _ _ _ _ noCallSiteDiag (fun _ _ => rfl))⟩
  | BoolExpression v ty0 =>
    simp only [for_expression, Option.some.injEq] at h
    have hst : st' = (for_expression_tail (.BoolExpression v ty0)
        (some .BOOL) ety st).2 := (congrArg Prod.snd h).symm
    subst hst
    exact ⟨for_expression_tail_extends _ _ _ _ exprSiteDiag (fun _ _ => rfl),
      fun _ => for_expression_tail_extends _ _ _ _ noCallSiteDiag (fun _ _ => rfl)⟩
  | IntExpression v ty0 =>
    simp only [for_expression] at h
    rcases hcr : check_integer_constant_range v st with ⟨b, st₁⟩
    rw [hcr] at h
    simp only [Option.some.injEq] at h
    have hst : st' = (for_expression_tail (.IntExpression v ty0)
        (some .INT) ety st₁).2 := (congrArg Prod.snd h).symm
    have h1e : ExtendsBy st st₁ exprSiteDiag := by
      have := check_integer_constant_range_extends v st exprSiteDiag rfl
      rwa [hcr] at this
    have h1n : ExtendsBy st st₁ noCallSiteDiag := by
      have := check_integer_constant_range_extends v st noCallSiteDiag rfl
      rwa [hcr] at this
    subst hst
    exact ⟨extendsBy_trans h1e (for_expression_tail_extends _ _ _ _ exprSiteDiag (fun _ _ => rfl)),
      fun _ => extendsBy_trans h1n (for_expression_tail_extends _ _ _ _ noCallSiteDiag (fun _ _ => rfl))⟩
  | OpAppExpression op args ty0 =>
    simp only [for_expression] at h
    split at h
    · exact Option.noConfusion h
    next ptys rty hs =>
    split at h
    · exact Option.noConfusion h
    next args' st₁ hf =>
    simp only [Option.some.injEq] at h
    have hst : st' = (for_expression_tail (.OpAppExpression op args' ty0)
        (some rty) ety st₁).2 := (congrArg Prod.snd h).symm
    obtain ⟨h1e, h1n⟩ := for_op_args_extends ptys args st args' st₁ hf
    subst hst
    refine ⟨extendsBy_trans h1e (for_expression_tail_extends _ _ _ _ exprSiteDiag (fun _ _ => rfl)), fun hc => ?_⟩
    have : hasCallList args = false := by simpa [hasCall] using hc
    exact extendsBy_trans (h1n this) (for_expression_tail_extends _ _ _ _ noCallSiteDiag (fun _ _ => rfl))
  | CallExpression n args ty0 =>
    simp only [for_expression] at h
    refine And.intro ?_ (fun hc => by simp [hasCall] at hc)
    split at h
    next hp =>
      split at h
      · exact Option.noConfusion h
      next args' st₂ hf =>
      simp only [Option.some.injEq] at h
      have hst : st' = (for_expression_tail (.CallExpression n args' ty0)
          none ety st₂).2 := (congrArg Prod.snd h).symm
      obtain ⟨h2e, -⟩ := for_call_args_extends [] args _ args' st₂ hf
      subst hst
      exact extendsBy_trans
        (extendsBy_report st exprSiteDiag (.unknown_procedure n) rfl) h2e
    next atys rty hp =>
      split at h
      · exact Option.noConfusion h
      next args' st₂ hf =>
      simp only [Option.some.injEq] at h
      have hst : st' = (for_expression_tail (.CallExpression n args' ty0)
          (some rty) ety st₂).2 := (congrArg Prod.snd h).symm
      obtain ⟨h2e, -⟩ := for_call_args_extends atys args _ args' st₂ hf
      have h1e : ExtendsBy st (if atys.length ≠ args.length then
          report (.invalid_number_of_arguments atys.length args.length) st else st)
          exprSiteDiag := by
        split
        · exact extendsBy_report st exprSiteDiag (.invalid_number_of_arguments atys.length args.length) rfl
        · exact extendsBy_refl st exprSiteDiag
      subst hst
      exact extendsBy_trans (extendsBy_trans h1e h2e)
        (for_expression_tail_extends _ _ _ _ exprSiteDiag (fun _ _ => rfl))
  | PrintExpression a ty0 =>
    simp only [for_expression] at h
    split at h
    · exact Option.noConfusion h
    next a' st₁ hf =>
    obtain ⟨h1e, h1n⟩ := for_expression_extends a none st a' st₁ hf
    have step : ∀ st₂ : St, st' = (for_expression_tail (.PrintExpression a' ty0)
          (some .VOID) ety st₂).2 →
        ExtendsBy st₁ st₂ exprSiteDiag → ExtendsBy st₁ st₂ noCallSiteDiag →
        ExtendsBy st st' exprSiteDiag ∧
          (hasCall (Expression.PrintExpression a ty0) = false → ExtendsBy st st' noCallSiteDiag) := by
      intro st₂ hst h2e h2n
      subst hst
      refine ⟨extendsBy_trans h1e (extendsBy_trans h2e (for_expression_tail_extends _ _ _ _ exprSiteDiag (fun _ _ => rfl))), fun hc => ?_⟩
      have hca : hasCall a = false := by simpa [hasCall] using hc
      exact extendsBy_trans (h1n hca) (extendsBy_trans h2n
        (for_expression_tail_extends _ _ _ _ noCallSiteDiag (fun _ _ => rfl)))
    split at h
    · simp only [Option.some.injEq] at h
      exact step st₁ (congrArg Prod.snd h).symm (extendsBy_refl _ _) (extendsBy_refl _ _)
    next t ht =>
      split at h <;> simp only [Option.some.injEq] at h
      · exact step st₁ (congrArg Prod.snd h).symm (extendsBy_refl _ _) (extendsBy_refl _ _)
      · exact step (report (.can_only_print t) st₁) (congrArg Prod.snd h).symm
          (extendsBy_report st₁ exprSiteDiag (.can_only_print t) rfl)
          (extendsBy_report st₁ noCallSiteDiag (.can_only_print t) rfl)
  | AllocExpression aty s ty0 => exact Option.noConfusion h
  | DereferenceExpression p ty0 =>
    simp only [for_expression] at h
    split at h <;> exact Option.noConfusion h
  | IndexExpression a i ty0 =>
    simp only [for_expression] at h
    split at h <;> exact Option.noConfusion h
  | NullExpression ty0 => exact Option.noConfusion h
  | RefExpression arg ty0 => exact Option.noConfusion h

theorem for_op_args_extends (ptys : List Ty) (args : List Expression) (st : St)
    (args' : List Expression) (st' : St) (h : for_op_args ptys args st = some (args', st')) :
    ExtendsBy st st' exprSiteDiag ∧
      (hasCallList args = false → ExtendsBy st st' noCallSiteDiag) := by
  cases args with
  | nil =>
    simp only [for_op_args, Option.some.injEq] at h
    have hst : st' = st := (congrArg Prod.snd h).symm
    subst hst
    exact ⟨extendsBy_refl _ _, fun _ => extendsBy_refl _ _⟩
  | cons a rest =>
    cases ptys with
    | nil =>
      simp only [for_op_args, Option.some.injEq] at h
      have hst : st' = st := (congrArg Prod.snd h).symm
      subst hst
      exact ⟨extendsBy_refl _ _, fun _ => extendsBy_refl _ _⟩
    | cons p ptys =>
      simp only [for_op_args] at h
      split at h
      · exact Option.noConfusion h
      next a' st₁ hf =>
      split at h
      · exact Option.noConfusion h
      next rest' st₂ hr =>
      simp only [Option.some.injEq] at h
      have hst : st' = st₂ := (congrArg Prod.snd h).symm
      subst hst
      obtain ⟨h1e, h1n⟩ := for_expression_extends a (some p) st a' st₁ hf
      obtain ⟨h2e, h2n⟩ := for_op_args_extends ptys rest st₁ rest' st' hr
      refine ⟨extendsBy_trans h1e h2e, fun hc => ?_⟩
      have hc1 : hasCall a = false := by
        simp only [hasCallList, Bool.or_eq_false_iff] at hc; exact hc.1
      have hc2 : hasCallList rest = false := by
        simp only [hasCallList, Bool.or_eq_false_iff] at hc; exact hc.2
      exact extendsBy_trans (h1n hc1) (h2n hc2)

theorem for_call_args_extends (atys : List Ty) (args : List Expression) (st : St)
    (args' : List Expression) (st' : St) (h : for_call_args atys args st = some (args', st')) :
    ExtendsBy st st' exprSiteDiag ∧
      (hasCallList args = false → ExtendsBy st st' noCallSiteDiag) := by
  cases args with
  | nil =>
    simp only [for_call_args, Option.some.injEq] at h
    have hst : st' = st := (congrArg Prod.snd h).symm
    subst hst
    exact ⟨extendsBy_refl _ _, fun _ => extendsBy_refl _ _⟩
  | cons a rest =>
    simp only [for_call_args] at h
    split at h
    · exact Option.noConfusion h
    next a' st₁ hf =>
    split at h
    · exact Option.noConfusion h
    next rest' st₂ hr =>
    simp only [Option.some.injEq] at h
    have hst : st' = st₂ := (congrArg Prod.snd h).symm
    subst hst
    obtain ⟨h1e, h1n⟩ := for_expression_extends a atys.head? st a' st₁ hf
    obtain ⟨h2e, h2n⟩ := for_call_args_extends atys.tail rest st₁ rest' st' hr
    refine ⟨extendsBy_trans h1e h2e, fun hc => ?_⟩
    have hc1 : hasCall a = false := by
      simp only [hasCallList, Bool.or_eq_false_iff] at hc; exact hc.1
    have hc2 : hasCallList rest = false := by
      simp only [hasCallList, Bool.or_eq_false_iff] at hc; exact hc.2
    exact extendsBy_trans (h1n hc1) (h2n hc2)

end

/-- Successful expression checking only appends diagnostics; in particular
every diagnostic already recorded stays recorded. -/
theorem for_expression_mem {e : Expression} {ety : Option Ty} {st : St} {e' : Expression}
    {st' : St} (h : for_expression e ety st = some (e', st')) {d : Diag}
    (hd : d ∈ st.diags) : d ∈ st'.diags :=
  extendsBy_mem (for_expression_extends e ety st e' st' h).1 hd

/-- Successful expression checking never touches the scope chain. -/
theorem for_expression_scope {e : Expression} {ety : Option Ty} {st : St} {e' : Expression}
    {st' : St} (h : for_expression e ety st = some (e', st')) : st'.scope = st.scope :=
  extendsBy_scope (for_expression_extends e ety st e' st' h).1

/-- Expression checking never records a duplicate-declaration diagnostic:
that report site lies in `check_local_free`, which only statements and
parameter binding call. -/
theorem for_expression_no_dup {e : Expression} {ety : Option Ty} {st : St} {e' : Expression}
    {st' : St} (h : for_expression e ety st = some (e', st')) (n : String)
    (hd : Diag.duplicated_variable_declaration n ∉ st.diags) :
    Diag.duplicated_variable_declaration n ∉ st'.diags :=
  extendsBy_not_mem (for_expression_extends e ety st e' st' h).1 rfl hd

/-- Checking a call-free expression never records an argument-count
diagnostic: that report site lies in the call-expression arm only. -/
theorem for_expression_no_arity {e : Expression} {ety : Option Ty} {st : St} {e' : Expression}
    {st' : St} (hc : hasCall e = false) (h : for_expression e ety st = some (e', st'))
    (a b : Nat) (hd : Diag.invalid_number_of_arguments a b ∉ st.diags) :
    Diag.invalid_number_of_arguments a b ∉ st'.diags :=
  extendsBy_not_mem ((for_expression_extends e ety st e' st' h).2 hc) rfl hd

theorem tail_getElem? {α : Type} (l : List α) (i : Nat) : l.tail[i]? = l[i + 1]? := by
  cases l <;> simp

theorem for_call_args_length (atys : List Ty) (args : List Expression) (st : St)
    (args' : List Expression) (st' : St) (h : for_call_args atys args st = some (args', st')) :
    args'.length = args.length := by
  induction args generalizing atys st args' st' with
  | nil =>
    simp only [for_call_args, Option.some.injEq] at h
    have h1 : args' = [] := (congrArg Prod.fst h).symm
    subst h1
    rfl
  | cons a rest ih =>
    simp only [for_call_args] at h
    split at h
    · exact Option.noConfusion h
    next a' st₁ hf =>
    split at h
    · exact Option.noConfusion h
    next rest' st₂ hr =>
    simp only [Option.some.injEq] at h
    have h1 : args' = a' :: rest' := (congrArg Prod.fst h).symm
    subst h1
    simp [ih atys.tail st₁ rest' st₂ hr]

/-- Each call argument in the output is the result of checking the
corresponding input argument against its positional parameter type
(`atypes[i]` when `i` is within the declared arity, no constraint
otherwise), in some intermediate state of the left-to-right pass. -/
theorem for_call_args_get (atys : List Ty) (args : List Expression) (st : St)
    (args' : List Expression) (st' : St) (h : for_call_args atys args st = some (args', st'))
    (i : Nat) (a a' : Expression) (ha : args[i]? = some a) (ha' : args'[i]? = some a') :
    ∃ s s', for_expression a atys[i]? s = some (a', s') := by
  induction args generalizing atys st args' st' i with
  | nil => simp at ha
  | cons b rest ih =>
    simp only [for_call_args] at h
    split at h
    · exact Option.noConfusion h
    next b' st₁ hf =>
    split at h
    · exact Option.noConfusion h
    next rest' st₂ hr =>
    simp only [Option.some.injEq] at h
    have h1 : args' = b' :: rest' := (congrArg Prod.fst h).symm
    subst h1
    cases i with
    | zero =>
      simp only [List.getElem?_cons_zero, Option.some.injEq] at ha ha'
      subst ha; subst ha'
      refine ⟨st, st₁, ?_⟩
      have : atys[0]? = atys.head? := by cases atys <;> simp
      rw [this]
      exact hf
    | succ j =>
      simp only [List.getElem?_cons_succ] at ha ha'
      have := ih atys.tail st₁ rest' st₂ hr j ha ha'
      rwa [tail_getElem?] at this

theorem for_op_args_length (ptys : List Ty) (args : List Expression) (st : St)
    (args' : List Expression) (st' : St) (h : for_op_args ptys args st = some (args', st')) :
    args'.length = args.length := by
  induction args generalizing ptys st args' st' with
  | nil =>
    simp only [for_op_args, Option.some.injEq] at h
    have h1 : args' = [] := (congrArg Prod.fst h).symm
    subst h1
    rfl
  | cons a rest ih =>
    cases ptys with
    | nil =>
      simp only [for_op_args, Option.some.injEq] at h
      have h1 : args' = a :: rest := (congrArg Prod.fst h).symm
      subst h1
      rfl
    | cons p pt =>
      simp only [for_op_args] at h
      split at h
      · exact Option.noConfusion h
      next a' st₁ hf =>
      split at h
      · exact Option.noConfusion h
      next rest' st₂ hr =>
      simp only [Option.some.injEq] at h
      have h1 : args' = a' :: rest' := (congrArg Prod.fst h).symm
      subst h1
      simp [ih pt st₁ rest' st₂ hr]

/-- Each operator argument within the declared arity is, in the output, the
result of checking the corresponding input argument against its positional
parameter type, in some intermediate state of the left-to-right pass. -/
theorem for_op_args_get (ptys : List Ty) (args : List Expression) (st : St)
    (args' : List Expression) (st' : St) (h : for_op_args ptys args st = some (args', st'))
    (i : Nat) (p : Ty) (a a' : Expression) (hp : ptys[i]? = some p)
    (ha : args[i]? = some a) (ha' : args'[i]? = some a') :
    ∃ s s', for_expression a (some p) s = some (a', s') := by
  induction args generalizing ptys st args' st' i with
  | nil => simp at ha
  | cons b rest ih =>
    cases ptys with
    | nil => simp at hp
    | cons q pt =>
      simp only [for_op_args] at h
      split at h
      · exact Option.noConfusion h
      next b' st₁ hf =>
      split at h
      · exact Option.noConfusion h
      next rest' st₂ hr =>
      simp only [Option.some.injEq] at h
      have h1 : args' = b' :: rest' := (congrArg Prod.fst h).symm
      subst h1
      cases i with
      | zero =>
        simp only [List.getElem?_cons_zero, Option.some.injEq] at hp ha ha'
        subst hp; subst ha; subst ha'
        exact ⟨st, st₁, hf⟩
      | succ j =>
        simp only [List.getElem?_cons_succ] at hp ha ha'
        exact ih pt st₁ rest' st₂ hr j hp ha ha'

/-- Operator arguments beyond the declared arity are passed through
verbatim: their nodes (and hence their `type_` slots) are unchanged. -/
theorem for_op_args_untouched (ptys : List Ty) (args : List Expression) (st : St)
    (args' : List Expression) (st' : St) (h : for_op_args ptys args st = some (args', st'))
    (i : Nat) (hi : ptys.length ≤ i) : args'[i]? = args[i]? := by
  induction args generalizing ptys st args' st' i with
  | nil =>
    simp only [for_op_args, Option.some.injEq] at h
    have h1 : args' = [] := (congrArg Prod.fst h).symm
    subst h1
    rfl
  | cons b rest ih =>
    cases ptys with
    | nil =>
      simp only [for_op_args, Option.some.injEq] at h
      have h1 : args' = b :: rest := (congrArg Prod.fst h).symm
      subst h1
      rfl
    | cons q pt =>
      simp only [for_op_args] at h
      split at h
      · exact Option.noConfusion h
      next b' st₁ hf =>
      split at h
      · exact Option.noConfusion h
      next rest' st₂ hr =>
      simp only [Option.some.injEq] at h
      have h1 : args' = b' :: rest' := (congrArg Prod.fst h).symm
      subst h1
      cases i with
      | zero => simp at hi
      | succ j =>
        simp only [List.getElem?_cons_succ]
        exact ih pt st₁ rest' st₂ hr j (Nat.le_of_succ_le_succ hi)

/-- The zip in the operator arm consumes exactly the declared arity: the
result on `kept ++ extras` is the result on `kept` with `extras` carried
through untouched, whatever `extras` is. -/
theorem for_op_args_append (ptys : List Ty) (kept extras : List Expression) (st : St)
    (hlen : kept.length = ptys.length) :
    for_op_args ptys (kept ++ extras) st =
      (for_op_args ptys kept st).map (fun pr => (pr.1 ++ extras, pr.2)) := by
  induction ptys generalizing kept st with
  | nil =>
    have hk : kept = [] := List.length_eq_zero.mp hlen
    subst hk
    cases extras <;> simp [for_op_args]
  | cons p pt ih =>
    cases kept with
    | nil => simp at hlen
    | cons k kr =>
      simp only [List.cons_append, for_op_args]
      cases hfe : for_expression k (some p) st with
      | none => simp
      | some pr =>
        obtain ⟨k', st₁⟩ := pr
        simp only [List.length_cons, Nat.succ.injEq] at hlen
        dsimp only
        rw [show kr.append extras = kr ++ extras from rfl, ih kr st₁ hlen]
        cases hr : for_op_args pt kr st₁ with
        | none => simp
        | some pr2 =>
          obtain ⟨kr', st₂⟩ := pr2
          simp

/-- C1: the driver `check` runs the PreTyper and then the TypeChecker inside
one reporter checkpoint; whenever it returns a boolean at all, that boolean
is true if and only if the whole checking session recorded zero diagnostics,
independently of which rules produced any diagnostics. -/
theorem C1_check_true_iff_no_diagnostics (prgm : Program) (b : Bool)
    (h : check prgm = some b) :
    b = true ↔ (checkSession prgm).map St.diags = some [] := by
  unfold check at h
  cases hs : checkSession prgm with
  | none => rw [hs] at h; exact Option.noConfusion h
  | some st =>
    rw [hs] at h
    simp only [Option.some.injEq] at h
    subst h
    simp [List.isEmpty_iff]

/-- C1 witness: on `proc main() { }` the driver returns true and the session
recorded no diagnostic. -/
theorem C1_check_true_iff_no_diagnostics_witness :
    (checkSession [TopDecl.ProcDecl (r"main") [] none (.BlockStatement [])]).map St.diags
      = some [] :=
  (C1_check_true_iff_no_diagnostics
    [TopDecl.ProcDecl (r"main") [] none (.BlockStatement [])] true rfl).mp rfl

/-- C2 (code defect): the checker never compares a returned value's type with
the enclosing procedure's declared return type -- a procedure declared to
return `int` whose body is `return true;` yields zero diagnostics, so `check`
returns true -- and every value-less return crashes the checker (the branch
reads the non-existent attribute `self.proc.retty` and would then call
`for_expression(None)` into the `assert(False)` arm), so on
`proc main() { return; }` the driver returns no boolean at all. -/
theorem C2_return_statement_defects :
    check [.ProcDecl (r"main") [] none (.BlockStatement []),
        .ProcDecl (r"f") [] (some .INT)
          (.ReturnStatement (some (.BoolExpression true none)))] = some true ∧
    check [.ProcDecl (r"main") [] none (.ReturnStatement none)] = none :=
  ⟨rfl, rfl⟩

/-- C3 (code defect): checking does not run to completion on every data-model
variant: a null literal and an address-of expression reach the default
`assert(False)` arm of `for_expression`, and a value-less return statement in
a void procedure crashes too, so on these programs `check` returns no
boolean. -/
theorem C3_checking_not_total :
    check [.ProcDecl (r"main") [] none (.ExprStatement (.NullExpression none))] = none ∧
    check [.ProcDecl (r"main") [] none
        (.ExprStatement (.RefExpression (.VarAssignable (r"x")) none))] = none ∧
    check [.ProcDecl (r"main") [] none (.ReturnStatement none)] = none :=
  ⟨rfl, rfl, rfl⟩

/-- C4 counterexample: `bitwise-negation` is a bitwise operator, yet its
table entry takes a `bool` operand and returns `bool`, not `int` operands
with an `int` result as the claim states of every bitwise operator. -/
theorem C4_bitwise_negation_signature :
    assoc SIGS (r"bitwise-negation") = some ([Ty.BOOL], Ty.BOOL) ∧
      (([Ty.BOOL], Ty.BOOL) : List Ty × Ty) ≠ ([Ty.INT], Ty.INT) :=
  ⟨rfl, by decide⟩

/-- C4 (amended): every arithmetic and shift operator and every binary
bitwise operator has `int` operands and an `int` result; the unary
`bitwise-negation` operator, like the boolean operators, has a `bool`
operand and a `bool` result; every comparison has `int` operands and a
`bool` result.  Every operator application that checks successfully uses an
operator present in the table, is annotated with the table's declared result
type, and each argument within the arity is checked against its positional
parameter type. -/
theorem C4_operator_signatures :
    ((∀ op ∈ [(r"addition"), (r"subtraction"), (r"multiplication"), (r"division"),
        (r"modulus"), (r"logical-right-shift"), (r"logical-left-shift"),
        (r"bitwise-and"), (r"bitwise-or"), (r"bitwise-xor")],
        assoc SIGS op = some ([Ty.INT, Ty.INT], Ty.INT)) ∧
      assoc SIGS (r"opposite") = some ([Ty.INT], Ty.INT) ∧
      (∀ op ∈ [(r"bitwise-negation"), (r"boolean-not")],
        assoc SIGS op = some ([Ty.BOOL], Ty.BOOL)) ∧
      (∀ op ∈ [(r"boolean-and"), (r"boolean-or")],
        assoc SIGS op = some ([Ty.BOOL, Ty.BOOL], Ty.BOOL)) ∧
      (∀ op ∈ [(r"cmp-equal"), (r"cmp-not-equal"), (r"cmp-lower-than"),
        (r"cmp-lower-or-equal-than"), (r"cmp-greater-than"),
        (r"cmp-greater-or-equal-than")],
        assoc SIGS op = some ([Ty.INT, Ty.INT], Ty.BOOL))) ∧
    (∀ op args ty0 etype st e' st',
      for_expression (.OpAppExpression op args ty0) etype st = some (e', st') →
      ∃ ptys rty args', assoc SIGS op = some (ptys, rty) ∧
        e' = .OpAppExpression op args' (some rty) ∧ args'.length = args.length ∧
        ∀ (i : Nat) (p : Ty) (a a' : Expression),
          ptys[i]? = some p → args[i]? = some a → args'[i]? = some a' →
          ∃ s s', for_expression a (some p) s = some (a', s')) := by
  constructor
  · exact ⟨by decide, rfl, by decide, by decide, by decide⟩
  · intro op args ty0 etype st e' st' h
    simp only [for_expression] at h
    split at h
    · exact Option.noConfusion h
    next ptys rty hs =>
    split at h
    · exact Option.noConfusion h
    next args' st₁ hf =>
    simp only [Option.some.injEq] at h
    have he : e' = (for_expression_tail (.OpAppExpression op args' ty0)
        (some rty) etype st₁).1 := (congrArg Prod.fst h).symm
    exact ⟨ptys, rty, args', hs, he,
      for_op_args_length ptys args st args' st₁ hf,
      fun i p a a' hp ha ha' => for_op_args_get ptys args st args' st₁ hf i p a a' hp ha ha'⟩

/-- C4 witness: instantiating the behavioural half at `1 + 2` checked in the
start state. -/
theorem C4_operator_signatures_witness :
    ∃ ptys rty args', assoc SIGS (r"addition") = some (ptys, rty) ∧
      (.OpAppExpression (r"addition")
          [.IntExpression 1 (some .INT), .IntExpression 2 (some .INT)] (some .INT) :
        Expression) = .OpAppExpression (r"addition") args' (some rty) ∧
      args'.length = ([.IntExpression 1 none, .IntExpression 2 none] :
        List Expression).length ∧
      ∀ (i : Nat) (p : Ty) (a a' : Expression), ptys[i]? = some p →
        ([.IntExpression 1 none, .IntExpression 2 none] : List Expression)[i]? = some a →
        args'[i]? = some a' → ∃ s s', for_expression a (some p) s = some (a', s') :=
  C4_operator_signatures.2 (r"addition") [.IntExpression 1 none, .IntExpression 2 none]
    none none st0
    (.OpAppExpression (r"addition")
      [.IntExpression 1 (some .INT), .IntExpression 2 (some .INT)] (some .INT)) st0 rfl

/-- C7: an integer literal always types as `int`; checked with no expected
type it adds no diagnostic exactly when its value lies in the signed 64-bit
range, and an out-of-range value appends exactly one range diagnostic while
the node is still typed `int`. -/
theorem C7_integer_literal_range (v : Int) (ty0 : Option Ty) (st : St) :
    ∃ st', for_expression (.IntExpression v ty0) none st =
        some (.IntExpression v (some .INT), st') ∧
      (st'.diags = st.diags ↔ -9223372036854775808 ≤ v ∧ v < 9223372036854775808) ∧
      (¬(-9223372036854775808 ≤ v ∧ v < 9223372036854775808) →
        st'.diags = st.diags ++ [.integer_literal_out_of_range v]) := by
  have hvp : (-(2 ^ 63) ≤ v ∧ v < 2 ^ 63) ↔
      (-9223372036854775808 ≤ v ∧ v < 9223372036854775808) := by norm_num
  by_cases hv : -9223372036854775808 ≤ v ∧ v < 9223372036854775808
  · refine ⟨st, ?_, by simp [hv], fun hc => absurd hv hc⟩
    unfold for_expression check_integer_constant_range
    rw [if_pos (hvp.mpr hv)]
    rfl
  · refine ⟨report (.integer_literal_out_of_range v) st, ?_, ?_, fun _ => rfl⟩
    · unfold for_expression check_integer_constant_range
      rw [if_neg (fun hc => hv (hvp.mp hc))]
      rfl
    · constructor
      · intro he
        have hlen := congrArg List.length he
        simp [report] at hlen
      · intro hin
        exact absurd hin hv

/-- C7 witness: the literal 2^63 is out of range and gets the range
diagnostic while still typed `int`. -/
theorem C7_integer_literal_range_witness :
    ∃ st', for_expression (.IntExpression 9223372036854775808 none) none st0 =
        some (.IntExpression 9223372036854775808 (some .INT), st') ∧
      st'.diags = st0.diags ++ [.integer_literal_out_of_range 9223372036854775808] := by
  obtain ⟨st', h1, -, h3⟩ := C7_integer_literal_range 9223372036854775808 none st0
  exact ⟨st', h1, h3 (by decide)⟩

theorem has_return_list_iff (l : List Statement) :
    has_return_list l = true ↔ ∃ s ∈ l, has_return s = true := by
  induction l with
  | nil => simp [has_return_list]
  | cons s r ih => simp [has_return_list, Bool.or_eq_true, ih]

/-- C5: the guaranteed-return predicate is true on a return statement; on an
if-statement exactly when the else branch is present and both branches
satisfy it; on a block exactly when some contained statement satisfies it;
false on every other statement kind; and a procedure with a declared return
type whose body fails the predicate gets the missing-return diagnostic. -/
theorem C5_has_return_spec :
    (∀ e, has_return (.ReturnStatement e) = true) ∧
    (∀ c t e?, has_return (.IfStatement c t e?) = true ↔
      ∃ e, e? = some e ∧ has_return t = true ∧ has_return e = true) ∧
    (∀ body, has_return (.BlockStatement body) = true ↔ ∃ s ∈ body, has_return s = true) ∧
    (∀ n i t, has_return (.VarDeclStatement n i t) = false) ∧
    (∀ l rr, has_return (.AssignStatement l rr) = false) ∧
    (∀ e, has_return (.ExprStatement e) = false) ∧
    (∀ e, has_return (.PrintStatement e) = false) ∧
    (∀ c b, has_return (.WhileStatement c b) = false) ∧
    has_return .BreakStatement = false ∧
    has_return .ContinueStatement = false ∧
    (∀ nm args rty body st st',
      for_topdecl (.ProcDecl nm args (some rty) body) st = some st' →
      has_return body = false → Diag.missing_return ∈ st'.diags) := by
  refine ⟨fun e => rfl, ?_, ?_, fun _ _ _ => rfl, fun _ _ => rfl, fun _ => rfl,
    fun _ => rfl, fun _ _ => rfl, rfl, rfl, ?_⟩
  · intro c t e?
    cases e? with
    | none => simp [has_return, has_return_opt]
    | some e => simp [has_return, has_return_opt, Bool.and_eq_true, and_comm]
  · intro body
    simp [has_return, has_return_list_iff]
  · intro nm args rty body st st' h hbr
    simp only [for_topdecl] at h
    split at h
    · exact Option.noConfusion h
    split at h
    · exact Option.noConfusion h
    next st₂ hfs =>
    rw [hbr] at h
    simp only [Bool.false_eq_true, if_false, Option.some.injEq] at h
    subst h
    simp [report]

/-- C5 witness: a procedure declared to return `int` whose body is an empty
block gets the missing-return diagnostic. -/
theorem C5_has_return_spec_witness :
    Diag.missing_return ∈ ((⟨[Diag.missing_return], ⟨[[]]⟩, [], 0, none⟩ : St)).diags :=
  C5_has_return_spec.2.2.2.2.2.2.2.2.2.2 (r"f") [] .INT (.BlockStatement []) st0
    (⟨[Diag.missing_return], ⟨[[]]⟩, [], 0, none⟩ : St) rfl rfl

/-- Every successful check of a call whose callee is known but applied to
the wrong number of arguments records a diagnostic carrying the exact
declared and actual counts. -/
theorem call_arity_reported (n : String) (atys : List Ty) (rty : Ty)
    (args : List Expression) (ty0 etype : Option Ty) (st : St) (e' : Expression) (st' : St)
    (hp : assoc st.procs n = some (atys, rty)) (hne : atys.length ≠ args.length)
    (h : for_expression (.CallExpression n args ty0) etype st = some (e', st')) :
    Diag.invalid_number_of_arguments atys.length args.length ∈ st'.diags := by
  simp only [for_expression] at h
  rw [hp] at h
  dsimp only at h
  rw [if_pos hne] at h
  split at h
  · exact Option.noConfusion h
  next args' st₂ hf =>
  simp only [Option.some.injEq] at h
  have hst : st' = (for_expression_tail (.CallExpression n args' ty0)
      (some rty) etype st₂).2 := (congrArg Prod.snd h).symm
  subst hst
  have h1 : Diag.invalid_number_of_arguments atys.length args.length ∈
      (report (.invalid_number_of_arguments atys.length args.length) st).diags := by
    simp [report]
  have h2 := extendsBy_mem (for_call_args_extends atys args _ args' st₂ hf).1 h1
  exact extendsBy_mem (for_expression_tail_extends _ _ _ _ exprSiteDiag (fun _ _ => rfl)) h2

/-- C6: for every call expression that checks successfully: an unknown
callee is reported and every argument is still checked with no expected
type, leaving the node's type slot unset; a known callee applied to the
wrong number of arguments gets a diagnostic with the exact counts; each
argument is checked against its positional parameter type (`atys[i]?` is
`none` beyond the declared arity, so extras are unconstrained); and the
node's inferred type is the declared return type. -/
theorem C6_call_checking (name : String) (args : List Expression) (ty0 etype : Option Ty)
    (st : St) (e' : Expression) (st' : St)
    (h : for_expression (.CallExpression name args ty0) etype st = some (e', st')) :
    (assoc st.procs name = none →
      Diag.unknown_procedure name ∈ st'.diags ∧
      ∃ args', e' = .CallExpression name args' none ∧ args'.length = args.length ∧
        ∀ (i : Nat) (a a' : Expression), args[i]? = some a → args'[i]? = some a' →
          ∃ s s', for_expression a none s = some (a', s')) ∧
    (∀ atys rty, assoc st.procs name = some (atys, rty) →
      (atys.length ≠ args.length →
        Diag.invalid_number_of_arguments atys.length args.length ∈ st'.diags) ∧
      ∃ args', e' = .CallExpression name args' (some rty) ∧ args'.length = args.length ∧
        ∀ (i : Nat) (a a' : Expression), args[i]? = some a → args'[i]? = some a' →
          ∃ s s', for_expression a atys[i]? s = some (a', s')) := by
  have harity := fun atys rty hp hne =>
    call_arity_reported name atys rty args ty0 etype st e' st' hp hne h
  simp only [for_expression] at h
  split at h
  next hp =>
    split at h
    · exact Option.noConfusion h
    next args' st₂ hf =>
    simp only [Option.some.injEq] at h
    have he : e' = (for_expression_tail (.CallExpression name args' ty0)
        none etype st₂).1 := (congrArg Prod.fst h).symm
    have hst : st' = (for_expression_tail (.CallExpression name args' ty0)
        none etype st₂).2 := (congrArg Prod.snd h).symm
    constructor
    · intro _
      refine ⟨?_, args', he, for_call_args_length [] args _ args' st₂ hf, ?_⟩
      · have h1 : Diag.unknown_procedure name ∈
            (report (.unknown_procedure name) st).diags := by simp [report]
        have h2 := extendsBy_mem (for_call_args_extends [] args _ args' st₂ hf).1 h1
        rw [hst]
        exact h2
      · intro i a a' ha ha'
        have := for_call_args_get [] args _ args' st₂ hf i a a' ha ha'
        simpa using this
    · intro atys rty hp2
      rw [hp] at hp2
      exact Option.noConfusion hp2
  next atys rty hp =>
    split at h
    · exact Option.noConfusion h
    next args' st₂ hf =>
    simp only [Option.some.injEq] at h
    have he : e' = (for_expression_tail (.CallExpression name args' ty0)
        (some rty) etype st₂).1 := (congrArg Prod.fst h).symm
    constructor
    · intro h0
      rw [hp] at h0
      exact Option.noConfusion h0
    · intro atys2 rty2 hp2
      rw [hp] at hp2
      simp only [Option.some.injEq, Prod.mk.injEq] at hp2
      obtain ⟨ha1, ha2⟩ := hp2
      subst ha1; subst ha2
      refine ⟨fun hne => harity atys rty hp hne, args', he,
        for_call_args_length atys args _ args' st₂ hf, ?_⟩
      intro i a a' ha ha'
      exact for_call_args_get atys args _ args' st₂ hf i a a' ha ha'

/-- C6 witness: calling a procedure declared with two `int` parameters using
one argument records the diagnostic with counts expected 2, got 1. -/
theorem C6_call_checking_witness :
    Diag.invalid_number_of_arguments 2 1 ∈
      ((⟨[Diag.invalid_number_of_arguments 2 1], ⟨[[]]⟩,
        [((r"f"), ([Ty.INT, Ty.INT], Ty.VOID))], 0, none⟩ : St)).diags :=
  ((C6_call_checking (r"f") [.IntExpression 1 none] none none
      (⟨[], ⟨[[]]⟩, [((r"f"), ([Ty.INT, Ty.INT], Ty.VOID))], 0, none⟩ : St)
      (.CallExpression (r"f") [.IntExpression 1 (some .INT)] (some .VOID))
      (⟨[Diag.invalid_number_of_arguments 2 1], ⟨[[]]⟩,
        [((r"f"), ([Ty.INT, Ty.INT], Ty.VOID))], 0, none⟩ : St)
      rfl).2 [Ty.INT, Ty.INT] Ty.VOID rfl).1 (by decide)

/-- C8 (code defect): a type mismatch is reported while the inferred type is
still written to the slot, and an unresolved variable leaves the slot unset
with no expected-type comparison; but a dereference or an indexing never
reaches its non-pointer/non-indexable report: evaluating `Type.POINTER_INT` /
`Type.INT` raises `AttributeError` (class `Type` has no such members), so the
checker crashes on every such expression instead of leaving the slot unset. -/
theorem C8_type_slot_handling :
    for_expression (.IntExpression 1 none) (some .BOOL) st0 =
      some (.IntExpression 1 (some .INT), report (.invalid_type .INT .BOOL) st0) ∧
    for_expression (.VarExpression (r"x") none) (some .INT) st0 =
      some (.VarExpression (r"x") none, report (.missing_variable_declaration (r"x")) st0) ∧
    for_expression (.DereferenceExpression (.IntExpression 1 none) none) none st0 = none ∧
    for_expression (.IndexExpression (.IntExpression 1 none) (.IntExpression 0 none) none)
      none st0 = none ∧
    for_expression (.AllocExpression .INT (.IntExpression 1 none) none) none st0 = none :=
  ⟨rfl, rfl, rfl, rfl, rfl⟩

/-- C9: a local declaration is rejected with the duplicate-declaration
diagnostic, and the name not re-bound, exactly when the name is already
bound in the innermost frame; a name free in the innermost frame (even one
bound in an enclosing frame, i.e. shadowing) is accepted: the declared type
is bound in the innermost frame and no duplicate-declaration diagnostic for
the name is recorded. -/
theorem C9_local_declaration (name : String) (init : Expression) (ty : Ty)
    (f : Frame) (rest : List Frame) (st st' : St)
    (hsc : st.scope = ⟨f :: rest⟩)
    (h : for_statement (.VarDeclStatement name init ty) st = some st') :
    ((assoc f name).isSome = true →
      Diag.duplicated_variable_declaration name ∈ st'.diags ∧ st'.scope = st.scope) ∧
    ((assoc f name).isSome = false →
      st'.scope = ⟨((name, ty) :: f) :: rest⟩ ∧
      (Diag.duplicated_variable_declaration name ∉ st.diags →
        Diag.duplicated_variable_declaration name ∉ st'.diags)) := by
  have hiso : st.scope.islocal name = (assoc f name).isSome := by
    rw [hsc]
    rfl
  unfold for_statement check_local_free at h
  rw [hiso] at h
  by_cases hfl : (assoc f name).isSome = true
  · rw [if_pos hfl] at h
    dsimp only at h
    split at h
    · exact Option.noConfusion h
    next pr st₃ hfe =>
    simp only [Option.some.injEq] at h
    subst h
    refine ⟨fun _ => ⟨?_, ?_⟩, fun hv => absurd hfl (by simp [hv])⟩
    · exact for_expression_mem hfe (by simp [report])
    · rw [for_expression_scope hfe]
      rfl
  · rw [if_neg hfl] at h
    dsimp only at h
    split at h
    · exact Option.noConfusion h
    next pr st₃ hfe =>
    simp only [Option.some.injEq] at h
    subst h
    refine ⟨fun hv => absurd hv hfl, fun _ => ⟨?_, ?_⟩⟩
    · rw [for_expression_scope hfe, hsc]
      unfold Scope.push
      rfl
    · intro hd
      exact for_expression_no_dup hfe name hd

/-- C9 witness: shadowing a binding of `x` from an enclosing frame is
accepted and binds `bool` in the innermost frame, with no
duplicate-declaration diagnostic. -/
theorem C9_local_declaration_witness :
    ((⟨[], ⟨[[((r"x"), Ty.BOOL)], [((r"x"), Ty.INT)]]⟩, [], 0, none⟩ : St)).scope =
      ⟨[[((r"x"), Ty.BOOL)], [((r"x"), Ty.INT)]]⟩ ∧
    (Diag.duplicated_variable_declaration (r"x") ∉
        ((⟨[], ⟨[[], [((r"x"), Ty.INT)]]⟩, [], 0, none⟩ : St)).diags →
      Diag.duplicated_variable_declaration (r"x") ∉
        ((⟨[], ⟨[[((r"x"), Ty.BOOL)], [((r"x"), Ty.INT)]]⟩, [], 0, none⟩ : St)).diags) :=
  (C9_local_declaration (r"x") (.BoolExpression true none) Ty.BOOL [] [[((r"x"), Ty.INT)]]
    (⟨[], ⟨[[], [((r"x"), Ty.INT)]]⟩, [], 0, none⟩ : St)
    (⟨[], ⟨[[((r"x"), Ty.BOOL)], [((r"x"), Ty.INT)]]⟩, [], 0, none⟩ : St)
    rfl rfl).2 rfl

/-- C10: for an operator application with more arguments than the declared
arity, the extra arguments are neither checked nor annotated -- the result
on `kept ++ extras` is the result on `kept` alone with `extras` carried
through verbatim and the same final state -- and (when the checked prefix
contains no call) checking records no argument-count diagnostic, unlike a
procedure call with a wrong argument count, which always records one. -/
theorem C10_operator_extra_arguments (op : String) (ptys : List Ty) (rty : Ty)
    (kept extras : List Expression) (ty0 etype : Option Ty) (st : St)
    (hsig : assoc SIGS op = some (ptys, rty)) (hlen : kept.length = ptys.length) :
    (∀ e' st', for_expression (.OpAppExpression op (kept ++ extras) ty0) etype st =
        some (e', st') →
      ∃ kept', e' = .OpAppExpression op (kept' ++ extras) (some rty) ∧
        for_expression (.OpAppExpression op kept ty0) etype st =
          some (.OpAppExpression op kept' (some rty), st')) ∧
    (hasCallList kept = false →
      ∀ e' st', for_expression (.OpAppExpression op (kept ++ extras) ty0) etype st =
        some (e', st') →
      ∀ x y, Diag.invalid_number_of_arguments x y ∉ st.diags →
        Diag.invalid_number_of_arguments x y ∉ st'.diags) ∧
    (∀ (cn : String) (catys : List Ty) (crty : Ty) (cargs : List Expression)
        (cty0 cet : Option Ty) (cst : St) (ce' : Expression) (cst' : St),
      assoc cst.procs cn = some (catys, crty) → catys.length ≠ cargs.length →
      for_expression (.CallExpression cn cargs cty0) cet cst = some (ce', cst') →
      Diag.invalid_number_of_arguments catys.length cargs.length ∈ cst'.diags) := by
  have main : ∀ e' st', for_expression (.OpAppExpression op (kept ++ extras) ty0) etype st =
      some (e', st') →
      ∃ kept', e' = .OpAppExpression op (kept' ++ extras) (some rty) ∧
        for_expression (.OpAppExpression op kept ty0) etype st =
          some (.OpAppExpression op kept' (some rty), st') := by
    intro e' st' h
    simp only [for_expression] at h
    rw [hsig] at h
    dsimp only at h
    rw [for_op_args_append ptys kept extras st hlen] at h
    cases hko : for_op_args ptys kept st with
    | none => rw [hko] at h; exact Option.noConfusion h
    | some pr =>
      obtain ⟨kept', st₁⟩ := pr
      rw [hko] at h
      simp only [Option.map, Option.some.injEq] at h
      have he : e' = (for_expression_tail (.OpAppExpression op (kept' ++ extras) ty0)
          (some rty) etype st₁).1 := (congrArg Prod.fst h).symm
      have hst : st' = (for_expression_tail (.OpAppExpression op (kept' ++ extras) ty0)
          (some rty) etype st₁).2 := (congrArg Prod.snd h).symm
      refine ⟨kept', he, ?_⟩
      simp only [for_expression]
      rw [hsig]
      dsimp only
      rw [hko]
      exact congrArg some (Prod.ext_iff.mpr ⟨rfl, hst.symm⟩)
  refine ⟨main, ?_, ?_⟩
  · intro hck e' st' h x y hx
    obtain ⟨kept', -, heq⟩ := main e' st' h
    exact for_expression_no_arity (by simpa [hasCall] using hck) heq x y hx
  · intro cn catys crty cargs cty0 cet cst ce' cst' hp hne hc
    exact call_arity_reported cn catys crty cargs cty0 cet cst ce' cst' hp hne hc

/-- C10 witness: `addition` applied to three arguments checks the first two
and carries the third (a bool literal, unchecked and unannotated) through
verbatim, with the same final state as checking the two-argument form. -/
theorem C10_operator_extra_arguments_witness :
    ∃ kept', (.OpAppExpression (r"addition")
        [.IntExpression 1 (some .INT), .IntExpression 2 (some .INT), .BoolExpression true none]
        (some .INT) : Expression) =
      .OpAppExpression (r"addition") (kept' ++ [.BoolExpression true none]) (some .INT) ∧
      for_expression (.OpAppExpression (r"addition")
          [.IntExpression 1 none, .IntExpression 2 none] none) none st0 =
        some (.OpAppExpression (r"addition") kept' (some .INT), st0) :=
  (C10_operator_extra_arguments (r"addition") [Ty.INT, Ty.INT] Ty.INT
    [.IntExpression 1 none, .IntExpression 2 none] [.BoolExpression true none] none none st0
    rfl rfl).1
    (.OpAppExpression (r"addition")
      [.IntExpression 1 (some .INT), .IntExpression 2 (some .INT), .BoolExpression true none]
      (some .INT)) st0 rfl

end BXC
